import Mathlib

/-!
Shallow embedding of the task-scheduler master (`src/master.py`) and proofs
about its queueing, leasing, completion, heartbeat, failure-monitor and reset
behaviour.

Modelling conventions:
* Python's global mutable state (`tasks`, `task_queue`, `workers`,
  `first_task_start`, `last_task_end`) becomes an explicit `MasterState`
  record threaded through every operation.
* Python dicts are insertion-ordered association lists; updating an existing
  key keeps its position (`dictInsert`), exactly like CPython dicts.
* `task_queue` in Python holds references to the very dict objects stored in
  `tasks`; here it holds the task ids and all reads go through the store.
* Timestamps (`time.time()`) are modelled as integers: every comparison the
  code makes (`now - last_seen > 10`) is order-theoretic, so float rounding
  is irrelevant.
* `list.sort(key=...)` is Python's stable Timsort; a stable sort by a fixed
  key is unique, and `pySortBy` (stable insertion sort) computes it.
* Each HTTP handler becomes a function of its request fields; absent JSON
  fields are `none` (`data.get(k)` returning `None`).
-/

namespace Master

/-- A task record, the dict built in `submit_task` (later mutated by
`get_task` / `update_task` / the monitor).  `startTime`/`endTime` are absent
keys until first set, hence `Option`. -/
structure Task where
  id : String
  type : Option String
  payload : Option String
  priority : Int
  status : String
  result : Option String
  worker : Option String
  timestamp : Int
  startTime : Option Int
  endTime : Option Int
deriving Repr, DecidableEq

/-- The master's global mutable state. -/
structure MasterState where
  tasks : List (String × Task)
  taskQueue : List String
  workers : List (String × Int)
  firstTaskStart : Option Int
  lastTaskEnd : Option Int
deriving Repr, DecidableEq

/-- Fresh server state: empty dicts, empty queue, timers unset. -/
def initState : MasterState := ⟨[], [], [], none, none⟩

/-- Association-list lookup (Python `d[k]` / `k in d`). -/
def alookup (k : String) : List (String × α) → Option α
  | [] => none
  | p :: rest => if p.1 = k then some p.2 else alookup k rest

/-- Python dict assignment `d[k] = v`: updating an existing key keeps its
position, a new key is appended. -/
def dictInsert (k : String) (v : α) : List (String × α) → List (String × α)
  | [] => [(k, v)]
  | p :: rest => if p.1 = k then (k, v) :: rest else p :: dictInsert k v rest

def lookupTask (s : MasterState) (tid : String) : Option Task :=
  alookup tid s.tasks

def lookupWorker (s : MasterState) (wid : String) : Option Int :=
  alookup wid s.workers

/-- The sort key `lambda t: t["priority"]` read through the store (the queue
holds references into `tasks`; every queued id is a store key in reachable
states, so the default is never consulted). -/
def priorityOf (s : MasterState) (tid : String) : Int :=
  ((lookupTask s tid).map Task.priority).getD 0

def statusOf (s : MasterState) (tid : String) : Option String :=
  (lookupTask s tid).map Task.status

/-- Insert `x` after every element of smaller-or-equal key: the position a
stable sort gives to the element. -/
def insertByKey (key : String → Int) (x : String) : List String → List String
  | [] => [x]
  | y :: ys => if key x ≤ key y then x :: y :: ys else y :: insertByKey key x ys

/-- Stable sort by key, modelling `task_queue.sort(key=lambda t: t["priority"])`
(Timsort is stable, and all stable sorts by the same key agree). -/
def pySortBy (key : String → Int) : List String → List String
  | [] => []
  | x :: xs => insertByKey key x (pySortBy key xs)

/-- `POST /submit` (`submit_task`).  `taskId` stands for the fresh
`uuid.uuid4()`; `ty`/`pl`/`prio` are `data.get("type")`, `data.get("payload")`,
`data.get("priority", 50)`.  Returns the HTTP status (always 201) with the
new state.  No field is validated. -/
def submit_task (taskId : String) (ty pl : Option String) (prio : Option Int)
    (now : Int) (s : MasterState) : Nat × MasterState :=
  let task : Task :=
    { id := taskId, type := ty, payload := pl, priority := prio.getD 50
      status := "queued", result := none, worker := none, timestamp := now
      startTime := none, endTime := none }
  -- `if len(tasks) == 0:` reset the makespan timers for a new batch
  let fts := if s.tasks.length = 0 then none else s.firstTaskStart
  let lte := if s.tasks.length = 0 then none else s.lastTaskEnd
  let s' : MasterState :=
    { s with tasks := dictInsert taskId task s.tasks
             firstTaskStart := fts, lastTaskEnd := lte }
  (201, { s' with taskQueue := pySortBy (priorityOf s') (s.taskQueue ++ [taskId]) })

/-- `GET /get_task`: pop the queue head (if any), mark it running for
`workerId`, stamp `start_time`, set `first_task_start` if unset.  The `.getD`
default is dead code: in every reachable state a queued id is a store key. -/
def get_task (workerId : String) (now : Int) (s : MasterState) :
    Option Task × MasterState :=
  match s.taskQueue with
  | [] => (none, s)
  | tid :: rest =>
    let t0 := (lookupTask s tid).getD
      { id := tid, type := none, payload := none, priority := 0
        status := "queued", result := none, worker := none, timestamp := 0
        startTime := none, endTime := none }
    let t := { t0 with status := "running", worker := some workerId
                       startTime := some now }
    (some t,
     { s with taskQueue := rest, tasks := dictInsert tid t s.tasks
              firstTaskStart :=
                if s.firstTaskStart = none then some now else s.firstTaskStart })

/-- `POST /update_task` (`reportResult`): if the id is known, overwrite
`result` and `status` unconditionally (`status` defaults to `"done"`); when
the status is `"done"`, stamp `end_time` and `last_task_end`.  Unknown ids
are silently ignored. -/
def update_task (taskId : String) (result status : Option String) (now : Int)
    (s : MasterState) : MasterState :=
  match alookup taskId s.tasks with
  | none => s
  | some t =>
    let st := status.getD "done"
    let t' := { t with result := result, status := st
                       endTime := if st = "done" then some now else t.endTime }
    { s with tasks := dictInsert taskId t' s.tasks
             lastTaskEnd := if st = "done" then some now else s.lastTaskEnd }

/-- `POST /register_worker`: unconditional upsert of the worker's
`last_seen` time. -/
def register_worker (workerId : String) (now : Int) (s : MasterState) :
    MasterState :=
  { s with workers := dictInsert workerId now s.workers }

/-- `POST /heartbeat`: refresh `last_seen` only when the worker is already
registered (`if worker_id in workers:`); unknown workers are ignored. -/
def heartbeat (workerId : String) (now : Int) (s : MasterState) : MasterState :=
  match alookup workerId s.workers with
  | none => s
  | some _ => { s with workers := dictInsert workerId now s.workers }

/-- The per-task effect of reassigning dead worker `wid`: a task it holds in
`running` state goes back to `queued` with its worker cleared. -/
def taskAfter (wid : String) (t : Task) : Task :=
  if t.worker = some wid ∧ t.status = "running" then
    { t with status := "queued", worker := none }
  else t

/-- One dead worker's handling inside the monitor loop: every `running` task
whose `worker` is `wid` is reset to `queued`, appended (in store order) to
the tail of `task_queue` with no re-sort, and the worker is deleted. -/
def reassignDead (wid : String) (s : MasterState) : MasterState :=
  let requeued := s.tasks.filterMap fun p =>
    if p.2.worker = some wid ∧ p.2.status = "running" then some p.1 else none
  { s with tasks := s.tasks.map fun p => (p.1, taskAfter wid p.2)
           taskQueue := s.taskQueue ++ requeued
           workers := s.workers.filter fun w => w.1 ≠ wid }

/-- One iteration of the `monitor_workers` loop body at time `now`: collect
the workers with `now - last_seen > 10` from the current registry snapshot,
then reassign each one's running tasks and evict it.  There is no lease-age
check anywhere in the loop. -/
def monitor_tick (now : Int) (s : MasterState) : MasterState :=
  let dead := (s.workers.filter fun w => now - w.2 > 10).map Prod.fst
  dead.foldl (fun acc wid => reassignDead wid acc) s

/-- `POST /reset` (`reset_system`): clears `tasks`, `task_queue` and the two
makespan timers.  The `workers` registry is left untouched (the handler
declares `global workers` but never clears it). -/
def reset_system (s : MasterState) : MasterState :=
  { s with tasks := [], taskQueue := [], firstTaskStart := none
           lastTaskEnd := none }

/-- The state-count summary of `get_summary`. -/
structure Summary where
  total : Nat
  queued : Nat
  running : Nat
  done : Nat
  failed : Nat
deriving Repr, DecidableEq

def get_summary (s : MasterState) : Summary :=
  { total := s.tasks.length
    queued := (s.tasks.filter fun p => p.2.status = "queued").length
    running := (s.tasks.filter fun p => p.2.status = "running").length
    done := (s.tasks.filter fun p => p.2.status = "done").length
    failed := (s.tasks.filter fun p => p.2.status = "failed").length }

/-- The worker-facing part of `/status`: the registered worker ids. -/
def workerList (s : MasterState) : List String := s.workers.map Prod.fst

def resultOf (s : MasterState) (tid : String) : Option (Option String) :=
  (lookupTask s tid).map Task.result

def startTimeOf (s : MasterState) (tid : String) : Option Int :=
  (lookupTask s tid).bind Task.startTime

/-! ### Basic dictionary and sorting lemmas -/

theorem alookup_dictInsert_self (k : String) (v : α) (l : List (String × α)) :
    alookup k (dictInsert k v l) = some v := by
  induction l with
  | nil => simp [dictInsert, alookup]
  | cons p rest ih =>
    by_cases h : p.1 = k <;> simp [dictInsert, alookup, h, ih]

theorem alookup_dictInsert_ne (k' k : String) (v : α) (l : List (String × α))
    (h : k' ≠ k) : alookup k' (dictInsert k v l) = alookup k' l := by
  induction l with
  | nil => simp [dictInsert, alookup, Ne.symm h]
  | cons p rest ih =>
    by_cases hp : p.1 = k
    · subst hp
      simp [dictInsert, alookup, Ne.symm h, h]
    · simp only [dictInsert, if_neg hp]
      by_cases hp' : p.1 = k' <;> simp [alookup, hp', ih]

theorem alookup_mem {k : String} {v : α} {l : List (String × α)}
    (h : alookup k l = some v) : (k, v) ∈ l := by
  induction l with
  | nil => simp [alookup] at h
  | cons p rest ih =>
    by_cases hp : p.1 = k
    · simp only [alookup, if_pos hp] at h
      have hv : p.2 = v := Option.some_injective _ h
      have : p = (k, v) := by
        cases p
        simp_all
      rw [← this]
      exact List.mem_cons_self _ _
    · simp only [alookup, if_neg hp] at h
      exact List.mem_cons_of_mem _ (ih h)

theorem mem_insertByKey (key : String → Int) (x y : String) (l : List String) :
    y ∈ insertByKey key x l ↔ y = x ∨ y ∈ l := by
  induction l with
  | nil => simp [insertByKey]
  | cons z zs ih =>
    by_cases h : key x ≤ key z
    · simp [insertByKey, h]
    · simp [insertByKey, h, ih]
      tauto

theorem mem_pySortBy (key : String → Int) (y : String) (l : List String) :
    y ∈ pySortBy key l ↔ y ∈ l := by
  induction l with
  | nil => simp [pySortBy]
  | cons x xs ih => simp [pySortBy, mem_insertByKey, ih]

theorem length_insertByKey (key : String → Int) (x : String) (l : List String) :
    (insertByKey key x l).length = l.length + 1 := by
  induction l with
  | nil => simp [insertByKey]
  | cons z zs ih =>
    by_cases h : key x ≤ key z <;> simp [insertByKey, h, ih]

theorem length_pySortBy (key : String → Int) (l : List String) :
    (pySortBy key l).length = l.length := by
  induction l with
  | nil => simp [pySortBy]
  | cons x xs ih => simp [pySortBy, length_insertByKey, ih]

/-! ### Monitor-step lemmas -/

theorem alookup_map_snd (k : String) (f : α → β) (l : List (String × α)) :
    alookup k (l.map fun p => (p.1, f p.2)) = (alookup k l).map f := by
  induction l with
  | nil => simp [alookup]
  | cons p rest ih =>
    by_cases h : p.1 = k <;> simp [alookup, h, ih]

theorem alookup_eq_none_iff (k : String) (l : List (String × α)) :
    alookup k l = none ↔ k ∉ l.map Prod.fst := by
  induction l with
  | nil => simp [alookup]
  | cons p rest ih =>
    by_cases h : p.1 = k
    · simp [alookup, h]
    · simp [alookup, h, ih, Ne.symm h]

theorem alookup_filter_ne_self (k : String) (l : List (String × α)) :
    alookup k (l.filter fun p => p.1 ≠ k) = none := by
  rw [alookup_eq_none_iff]
  intro hk
  obtain ⟨p, hp, hpk⟩ := List.mem_map.1 hk
  have hq := (List.mem_filter.1 hp).2
  simp [hpk] at hq

theorem alookup_none_filter (k : String) (q : String × α → Bool)
    (l : List (String × α)) (h : alookup k l = none) :
    alookup k (l.filter q) = none := by
  induction l with
  | nil => simp [alookup]
  | cons p rest ih =>
    by_cases hp : p.1 = k
    · simp [alookup, hp] at h
    · simp only [alookup, if_neg hp] at h
      by_cases hq : q p <;> simp [List.filter, hq, alookup, hp, ih h]

theorem alookup_append (k : String) (l₁ l₂ : List (String × α)) :
    alookup k (l₁ ++ l₂) =
      match alookup k l₁ with
      | some v => some v
      | none => alookup k l₂ := by
  induction l₁ with
  | nil => simp [alookup]
  | cons p rest ih =>
    by_cases h : p.1 = k <;> simp [alookup, h, ih]

theorem lookupTask_reassignDead (wid tid : String) (s : MasterState) :
    lookupTask (reassignDead wid s) tid
      = (lookupTask s tid).map (taskAfter wid) := by
  simp [reassignDead, lookupTask, alookup_map_snd]

/-- The monitor's fold, named for induction. -/
def reassignFold (l : List String) (s : MasterState) : MasterState :=
  l.foldl (fun acc wid => reassignDead wid acc) s

theorem monitor_tick_eq_reassignFold (now : Int) (s : MasterState) :
    monitor_tick now s
      = reassignFold ((s.workers.filter fun w => now - w.2 > 10).map Prod.fst) s :=
  rfl

theorem lookupTask_reassignFold (l : List String) :
    ∀ (s : MasterState) (tid : String),
      lookupTask (reassignFold l s) tid
        = l.foldl (fun o w => o.map (taskAfter w)) (lookupTask s tid) := by
  induction l with
  | nil => intro s tid; rfl
  | cons w rest ih =>
    intro s tid
    simp only [reassignFold, List.foldl_cons]
    rw [← reassignFold, ih, lookupTask_reassignDead]

theorem foldl_option_map (f : String → Task → Task) (l : List String) (t : Task) :
    l.foldl (fun o w => o.map (f w)) (some t)
      = some (l.foldl (fun u w => f w u) t) := by
  induction l generalizing t with
  | nil => rfl
  | cons w rest ih => simp [ih]

theorem taskAfter_of_worker_ne (w : String) (t : Task) (h : t.worker ≠ some w) :
    taskAfter w t = t := by
  simp [taskAfter, h]

theorem taskAfter_of_not_running (w : String) (t : Task)
    (h : t.status ≠ "running") : taskAfter w t = t := by
  simp [taskAfter, h]

theorem foldl_taskAfter_not_running (l : List String) (t : Task)
    (h : t.status ≠ "running") :
    l.foldl (fun u w => taskAfter w u) t = t := by
  induction l with
  | nil => rfl
  | cons w rest ih => simp [taskAfter_of_not_running w t h, ih]

theorem foldl_taskAfter_no_dead_worker (l : List String) (t : Task)
    (h : ∀ w ∈ l, t.worker ≠ some w) :
    l.foldl (fun u w => taskAfter w u) t = t := by
  induction l with
  | nil => rfl
  | cons w rest ih =>
    rw [List.foldl_cons, taskAfter_of_worker_ne w t (h w (by simp)),
      ih fun w' hw' => h w' (by simp [hw'])]

theorem foldl_taskAfter_hit (l : List String) (wid : String) (t : Task)
    (hmem : wid ∈ l) (hw : t.worker = some wid) (hs : t.status = "running") :
    l.foldl (fun u w => taskAfter w u) t
      = { t with status := "queued", worker := none } := by
  induction l with
  | nil => cases hmem
  | cons w rest ih =>
    by_cases hww : w = wid
    · subst hww
      rw [List.foldl_cons]
      have : taskAfter w t = { t with status := "queued", worker := none } := by
        simp [taskAfter, hw, hs]
      rw [this, foldl_taskAfter_not_running]
      simp
    · have hmem' : wid ∈ rest := by
        cases hmem with
        | head => exact absurd rfl hww
        | tail _ h => exact h
      rw [List.foldl_cons, taskAfter_of_worker_ne w t (by simp [hw, Ne.symm hww]),
        ih hmem']

theorem mem_queue_reassignDead (wid tid : String) (s : MasterState)
    (h : tid ∈ s.taskQueue) : tid ∈ (reassignDead wid s).taskQueue := by
  simp only [reassignDead]
  exact List.mem_append_left _ h

theorem mem_queue_reassignFold (l : List String) :
    ∀ (s : MasterState) (tid : String), tid ∈ s.taskQueue →
      tid ∈ (reassignFold l s).taskQueue := by
  induction l with
  | nil => intro s tid h; exact h
  | cons w rest ih =>
    intro s tid h
    exact ih _ _ (mem_queue_reassignDead w tid s h)

theorem mem_queue_of_dead_requeue (l : List String) (wid : String) :
    ∀ (s : MasterState) (tid : String) (t : Task), wid ∈ l →
      lookupTask s tid = some t → t.worker = some wid → t.status = "running" →
      tid ∈ (reassignFold l s).taskQueue := by
  induction l with
  | nil => intro s tid t h; cases h
  | cons w rest ih =>
    intro s tid t hmem hl hw hs
    by_cases hww : w = wid
    · subst hww
      refine mem_queue_reassignFold rest _ tid ?_
      simp only [reassignDead]
      refine List.mem_append_right _ ?_
      refine List.mem_filterMap.2 ⟨(tid, t), alookup_mem hl, ?_⟩
      simp [hw, hs]
    · have hmem' : wid ∈ rest := by
        cases hmem with
        | head => exact absurd rfl hww
        | tail _ h => exact h
      refine ih _ tid t hmem' ?_ hw hs
      rw [lookupTask_reassignDead, hl,
        Option.map_eq_some'.mpr ⟨t, rfl, rfl⟩]
      simp [taskAfter_of_worker_ne w t (by simp [hw, Ne.symm hww])]

theorem lookupWorker_reassignDead_self (wid : String) (s : MasterState) :
    lookupWorker (reassignDead wid s) wid = none := by
  simp only [reassignDead, lookupWorker]
  exact alookup_filter_ne_self wid s.workers

theorem lookupWorker_none_reassignDead (w wid : String) (s : MasterState)
    (h : lookupWorker s wid = none) :
    lookupWorker (reassignDead w s) wid = none :=
  alookup_none_filter wid _ s.workers h

theorem lookupWorker_none_reassignFold (l : List String) :
    ∀ (s : MasterState) (wid : String), lookupWorker s wid = none →
      lookupWorker (reassignFold l s) wid = none := by
  induction l with
  | nil => intro s wid h; exact h
  | cons w rest ih =>
    intro s wid h
    exact ih _ _ (lookupWorker_none_reassignDead w wid s h)

theorem lookupWorker_gone_of_dead (l : List String) :
    ∀ (s : MasterState) (wid : String), wid ∈ l →
      lookupWorker (reassignFold l s) wid = none := by
  induction l with
  | nil => intro s wid h; cases h
  | cons w rest ih =>
    intro s wid hmem
    by_cases hww : w = wid
    · rw [← hww]
      exact lookupWorker_none_reassignFold rest _ w
        (lookupWorker_reassignDead_self w s)
    · have hmem' : wid ∈ rest := by
        cases hmem with
        | head => exact absurd rfl hww
        | tail _ h => exact h
      exact ih _ wid hmem'

theorem mem_dead_of_stale (s : MasterState) (now : Int) (wid : String)
    (ls : Int) (hw : lookupWorker s wid = some ls) (hdead : now - ls > 10) :
    wid ∈ ((s.workers.filter fun w => now - w.2 > 10).map Prod.fst) := by
  refine List.mem_map.2 ⟨(wid, ls), ?_, rfl⟩
  refine List.mem_filter.2 ⟨alookup_mem hw, ?_⟩
  simpa using hdead

theorem alookup_eq_of_mem_nodup {k : String} {v : α} {l : List (String × α)}
    (hnd : (l.map Prod.fst).Nodup) (h : (k, v) ∈ l) : alookup k l = some v := by
  induction l with
  | nil => cases h
  | cons p rest ih =>
    cases h with
    | head => simp [alookup]
    | tail _ h =>
      have hk : k ∈ rest.map Prod.fst := List.mem_map.2 ⟨(k, v), h, rfl⟩
      have hne : p.1 ≠ k := by
        intro he
        exact (List.nodup_cons.1 hnd).1 (he ▸ hk)
      simp only [alookup, if_neg hne]
      exact ih (List.nodup_cons.1 hnd).2 h

/-! ### C3 — dead-worker requeue (confirmed behaviour) -/

/-- C3: at a monitor tick at time `now`, every worker whose last heartbeat is
more than 10 time units old (the code's `heartbeatTimeout`) is evicted from
the registry, and every task it held in `running` (Leased) state is moved
back to `queued` with its worker cleared and its id re-enqueued on the
pending queue. -/
theorem dead_worker_tick_requeues (s : MasterState) (now : Int) (wid : String)
    (ls : Int) (hw : lookupWorker s wid = some ls) (hdead : now - ls > 10) :
    lookupWorker (monitor_tick now s) wid = none ∧
    ∀ tid t, lookupTask s tid = some t → t.worker = some wid →
      t.status = "running" →
      lookupTask (monitor_tick now s) tid
        = some { t with status := "queued", worker := none } ∧
      tid ∈ (monitor_tick now s).taskQueue := by
  have hmem := mem_dead_of_stale s now wid ls hw hdead
  rw [monitor_tick_eq_reassignFold]
  refine ⟨lookupWorker_gone_of_dead _ s wid hmem, fun tid t ht hwk hst => ⟨?_, ?_⟩⟩
  · rw [lookupTask_reassignFold, ht, foldl_option_map,
      foldl_taskAfter_hit _ wid t hmem hwk hst]
  · exact mem_queue_of_dead_requeue _ wid s tid t hmem ht hwk hst

/-- The state used to witness the monitor theorems: worker `w1` registered at
time 0, tasks `A` (priority 5) and `B` (priority 1) submitted, and `B`
leased to `w1` at time 0. -/
def demoLeasedState : MasterState :=
  (get_task "w1" 0
    (submit_task "B" (some "sort") (some "p") (some 1) 0
      (submit_task "A" (some "sort") (some "p") (some 5) 0
        (register_worker "w1" 0 initState)).2).2).2

/-- The record task `B` holds in `demoLeasedState`. -/
def demoLeasedTask : Task :=
  { id := "B", type := some "sort", payload := some "p", priority := 1
    status := "running", result := none, worker := some "w1", timestamp := 0
    startTime := some 0, endTime := none }

theorem dead_worker_tick_requeues_witness :
    lookupWorker (monitor_tick 20 demoLeasedState) "w1" = none ∧
      "B" ∈ (monitor_tick 20 demoLeasedState).taskQueue :=
  ⟨(dead_worker_tick_requeues demoLeasedState 20 "w1" 0 (by decide) (by decide)).1,
   ((dead_worker_tick_requeues demoLeasedState 20 "w1" 0 (by decide) (by decide)).2
      "B" demoLeasedTask (by decide) (by decide) (by decide)).2⟩

/-! ### C2 — there is no lease-timeout requeue -/

/-- C2 amended: the monitor requeues a lease only through the death of its
holding worker.  A task held by any worker whose heartbeat is within the
10-unit timeout is left completely untouched by the tick, regardless of how
old its lease (`start_time`) is — the code contains no lease-age check.
(The worker registry is assumed duplicate-free, which every reachable state
satisfies since it is a Python dict.) -/
theorem monitor_spares_live_workers (s : MasterState) (now : Int)
    (tid w : String) (t : Task) (ls : Int)
    (hnd : (s.workers.map Prod.fst).Nodup)
    (ht : lookupTask s tid = some t) (hworker : t.worker = some w)
    (hlive : lookupWorker s w = some ls) (hfresh : ¬now - ls > 10) :
    lookupTask (monitor_tick now s) tid = some t := by
  rw [monitor_tick_eq_reassignFold, lookupTask_reassignFold, ht, foldl_option_map]
  rw [foldl_taskAfter_no_dead_worker _ t ?_]
  intro w' hw'
  rw [hworker]
  intro hww
  have hwe : w = w' := by injection hww
  obtain ⟨p, hp, hpe⟩ := List.mem_map.1 hw'
  have hpf := List.mem_filter.1 hp
  have hpc : p = (w, p.2) := by
    cases p
    simp_all
  have hlk : lookupWorker s w = some p.2 :=
    alookup_eq_of_mem_nodup hnd (hpc ▸ hpf.1)
  rw [hlive] at hlk
  have hls : ls = p.2 := Option.some_injective _ hlk
  have : now - p.2 > 10 := by simpa using hpf.2
  rw [← hls] at this
  exact hfresh this

theorem monitor_spares_live_workers_witness :
    lookupTask (monitor_tick 105 (heartbeat "w1" 100 demoLeasedState)) "B"
      = some demoLeasedTask :=
  monitor_spares_live_workers (heartbeat "w1" 100 demoLeasedState) 105 "B" "w1"
    demoLeasedTask 100 (by decide) (by decide) (by decide) (by decide) (by decide)

/-! ### C1 — duplicate completion reports -/

/-- C1 counterexample: submit a task, lease it, report it `done` with result
`r1`, then report it again as `failed` with result `r2`.  The second report
is applied (status becomes `failed`, result becomes `r2`), so it is not a
no-op and the first report does not win: `update_task` ignores only unknown
ids, never the task's current state. -/
theorem second_report_overwrites_cex :
    (let s1 := (submit_task "A" (some "sort") (some "p") (some 5) 0 initState).2
     let s2 := (get_task "w1" 1 s1).2
     let s3 := update_task "A" (some "r1") (some "done") 2 s2
     let s4 := update_task "A" (some "r2") (some "failed") 3 s3
     statusOf s3 "A" = some "done" ∧ resultOf s3 "A" = some (some "r1") ∧
       statusOf s4 "A" = some "failed" ∧ resultOf s4 "A" = some (some "r2") ∧
       s4 ≠ s3) := by decide

/-- C1 amended: `update_task` is a no-op exactly when the task id is unknown;
for a known task every report applies regardless of the task's current state,
so of two reports on the same known id the second (last) one wins. -/
theorem update_task_unknown_noop_last_wins (s : MasterState) (tid : String)
    (r₁ r₂ : Option String) (st₁ st₂ : String) (n₁ n₂ : Int) :
    (lookupTask s tid = none → update_task tid r₁ (some st₁) n₁ s = s) ∧
    (∀ t, lookupTask s tid = some t →
      statusOf (update_task tid r₁ (some st₁) n₁ s) tid = some st₁ ∧
      statusOf (update_task tid r₂ (some st₂) n₂
        (update_task tid r₁ (some st₁) n₁ s)) tid = some st₂ ∧
      resultOf (update_task tid r₂ (some st₂) n₂
        (update_task tid r₁ (some st₁) n₁ s)) tid = some r₂) := by
  constructor
  · intro h
    simp only [lookupTask] at h
    simp [update_task, h]
  · intro t h
    simp only [lookupTask] at h
    simp [update_task, h, statusOf, resultOf, lookupTask, alookup_dictInsert_self]

theorem update_task_unknown_noop_last_wins_witness :
    statusOf (update_task "A" (some "r2") (some "failed") 3
      (update_task "A" (some "r1") (some "done") 2
        (submit_task "A" (some "sort") (some "p") (some 5) 0 initState).2)) "A"
      = some "failed" :=
  ((update_task_unknown_noop_last_wins
      (submit_task "A" (some "sort") (some "p") (some 5) 0 initState).2
      "A" (some "r1") (some "r2") "done" "failed" 2 3).2
    { id := "A", type := some "sort", payload := some "p", priority := 5
      status := "queued", result := none, worker := none, timestamp := 0
      startTime := none, endTime := none }
    (by decide)).2.1

/-! ### C2 — no lease-timeout requeue exists -/

/-- C2 counterexample: worker `w` registers at 0, leases task `A` at time 0,
heartbeats at 100.  At the monitor tick at time 105, the lease is 105 time
units old — far beyond the code's only timeout constant, 10 — yet the tick
leaves the state completely unchanged and `A` stays `running`: the monitor
has no lease-age check at all. -/
theorem lease_timeout_never_requeues_cex :
    (let s1 := register_worker "w" 0 initState
     let s2 := (submit_task "A" (some "sort") (some "p") (some 5) 0 s1).2
     let s3 := (get_task "w" 0 s2).2
     let s4 := heartbeat "w" 100 s3
     monitor_tick 105 s4 = s4 ∧ statusOf s4 "A" = some "running" ∧
       startTimeOf s4 "A" = some 0 ∧ (105 : Int) - 0 > 10 ∧
       lookupWorker s4 "w" = some 100) := by decide

/-! ### C4 — requeued tasks are appended, not re-sorted -/

/-- C4 counterexample: submit `A` (priority 5) then `B` (priority 1); worker
`w1` leases `B` and dies; the monitor appends `B` at the tail of the queue
without re-sorting, so the next lease returns `A` (priority 5) even though
`B` (priority 1) is pending — the requeued task does not compete by its
priority until a later submit re-sorts the queue. -/
theorem requeue_breaks_priority_order_cex :
    (let s1 := register_worker "w1" 0 initState
     let s2 := (submit_task "A" (some "sort") (some "p") (some 5) 0 s1).2
     let s3 := (submit_task "B" (some "sort") (some "p") (some 1) 0 s2).2
     let s4 := (get_task "w1" 0 s3).2
     let s5 := monitor_tick 20 s4
     let r := get_task "w2" 21 s5
     s5.taskQueue = ["A", "B"] ∧ (r.1.map Task.id) = some "A" ∧
       (r.1.map Task.priority) = some 5 ∧ "B" ∈ r.2.taskQueue ∧
       priorityOf r.2 "B" = 1 ∧ (1 : Int) < 5) := by decide

/-! ### C6 — reset does not clear the worker registry -/

/-- C6 counterexample: register worker `w1`, submit a task, then `reset`.
All task counts are zero but the worker list still contains `w1`:
`reset_system` clears `tasks`, `task_queue` and the timers but never touches
`workers`. -/
theorem reset_keeps_workers_cex :
    (let s1 := register_worker "w1" 0 initState
     let s2 := (submit_task "A" (some "sort") (some "p") (some 5) 0 s1).2
     let s3 := reset_system s2
     get_summary s3 = ⟨0, 0, 0, 0, 0⟩ ∧ workerList s3 = ["w1"] ∧
       workerList s3 ≠ []) := by decide

/-- C6 amended: from any state, `reset` clears all task state — the summary
reports zero tasks in every state and the queue is empty — but the worker
registry is preserved verbatim, so the worker list is empty only if it
already was. -/
theorem reset_clears_tasks_keeps_workers (s : MasterState) :
    get_summary (reset_system s) = ⟨0, 0, 0, 0, 0⟩ ∧
    (reset_system s).taskQueue = [] ∧
    (reset_system s).firstTaskStart = none ∧
    (reset_system s).lastTaskEnd = none ∧
    (reset_system s).workers = s.workers := by
  simp [reset_system, get_summary]

/-! ### C7 — heartbeat does not implicitly register -/

/-- C7 counterexample: a heartbeat from worker `w1`, never registered, is a
complete no-op — afterwards `w1` is still absent from the registry, so the
call is not an implicit registration. -/
theorem heartbeat_unknown_ignored_cex :
    heartbeat "w1" 5 initState = initState ∧
      lookupWorker (heartbeat "w1" 5 initState) "w1" = none := by decide

/-- C7 amended: a heartbeat from an unregistered worker is ignored (the state
is unchanged); only an already-registered worker gets its last-seen time
refreshed, and it is `register_worker` that performs the upsert that creates
a registry entry. -/
theorem heartbeat_refreshes_only_known (s : MasterState) (wid : String)
    (now : Int) :
    (lookupWorker s wid = none → heartbeat wid now s = s) ∧
    (∀ ls, lookupWorker s wid = some ls →
      lookupWorker (heartbeat wid now s) wid = some now ∧
      (heartbeat wid now s).tasks = s.tasks ∧
      (heartbeat wid now s).taskQueue = s.taskQueue) ∧
    lookupWorker (register_worker wid now s) wid = some now := by
  refine ⟨fun h => ?_, fun ls h => ?_, ?_⟩
  · simp only [lookupWorker] at h
    simp [heartbeat, h]
  · simp only [lookupWorker] at h
    simp [heartbeat, h, lookupWorker, alookup_dictInsert_self]
  · simp [register_worker, lookupWorker, alookup_dictInsert_self]

theorem heartbeat_refreshes_only_known_witness :
    lookupWorker (heartbeat "w" 7 (register_worker "w" 0 initState)) "w"
      = some 7 :=
  (((heartbeat_refreshes_only_known (register_worker "w" 0 initState) "w" 7).2.1)
    0 (by decide)).1

/-! ### C8 — submit never validates -/

/-- C8 counterexample: a submit request with neither `type` nor `payload`
succeeds with HTTP 201, creates a task record (with `none` fields) and
enqueues it — there is no `InvalidArgument` path in `submit_task`. -/
theorem submit_missing_fields_accepted_cex :
    (let r := submit_task "A" none none none 0 initState
     r.1 = 201 ∧ (lookupTask r.2 "A").isSome ∧ r.2.taskQueue = ["A"] ∧
       ((lookupTask r.2 "A").map Task.type) = some none ∧
       ((lookupTask r.2 "A").map Task.payload) = some none) := by decide

/-- C8 amended: `submit_task` performs no validation at all: even with both
`type` and `payload` missing it answers 201, stores a task whose `type` and
`payload` are `None`, and enqueues it (the queue grows by exactly one and
contains the new id). -/
theorem submit_never_validates (s : MasterState) (taskId : String)
    (prio : Option Int) (now : Int) :
    ((submit_task taskId none none prio now s).1 = 201) ∧
    ((lookupTask (submit_task taskId none none prio now s).2 taskId).map
      Task.type) = some none ∧
    ((lookupTask (submit_task taskId none none prio now s).2 taskId).map
      Task.payload) = some none ∧
    taskId ∈ (submit_task taskId none none prio now s).2.taskQueue ∧
    (submit_task taskId none none prio now s).2.taskQueue.length
      = s.taskQueue.length + 1 := by
  refine ⟨rfl, ?_, ?_, ?_, ?_⟩
  · simp [submit_task, lookupTask, alookup_dictInsert_self]
  · simp [submit_task, lookupTask, alookup_dictInsert_self]
  · simp [submit_task, mem_pySortBy]
  · simp [submit_task, length_pySortBy]

/-! ### Stable sorting lemmas -/

/-- Sorted by `key`, with ties additionally ordered by `P` — the invariant a
stable sort guarantees when equal-key elements of the input satisfy `P` in
their input order. -/
def keyRel (key : String → Int) (P : String → String → Prop) (a b : String) :
    Prop :=
  key a ≤ key b ∧ (key a = key b → P a b)

theorem pairwise_trivial (l : List α) :
    l.Pairwise fun _ _ => (True : Prop) := by
  induction l <;> simp [*]

theorem pairwise_insertByKey_stable (key : String → Int)
    (P : String → String → Prop) (x : String) (l : List String)
    (hl : l.Pairwise (keyRel key P)) (hx : ∀ y ∈ l, key x = key y → P x y) :
    (insertByKey key x l).Pairwise (keyRel key P) := by
  induction l with
  | nil => simp [insertByKey, keyRel]
  | cons y ys ih =>
    rw [List.pairwise_cons] at hl
    obtain ⟨hy, hys⟩ := hl
    by_cases h : key x ≤ key y
    · simp only [insertByKey, if_pos h]
      refine List.pairwise_cons.2 ⟨?_, List.pairwise_cons.2 ⟨hy, hys⟩⟩
      intro z hz
      cases hz with
      | head => exact ⟨h, hx y (List.mem_cons_self _ _)⟩
      | tail _ hz =>
        refine ⟨le_trans h (hy z hz).1, hx z (List.mem_cons_of_mem _ hz)⟩
    · simp only [insertByKey, if_neg h]
      refine List.pairwise_cons.2 ⟨?_, ih hys fun z hz hk =>
        hx z (List.mem_cons_of_mem _ hz) hk⟩
      intro z hz
      rcases (mem_insertByKey key x z ys).1 hz with hzx | hzy
      · subst hzx
        refine ⟨le_of_lt (lt_of_not_le h), fun he => absurd he.symm.le h⟩
      · exact hy z hzy

theorem pairwise_pySortBy_stable (key : String → Int)
    (P : String → String → Prop) (l : List String)
    (h : l.Pairwise fun a b => key a = key b → P a b) :
    (pySortBy key l).Pairwise (keyRel key P) := by
  induction l with
  | nil => simp [pySortBy]
  | cons x xs ih =>
    rw [List.pairwise_cons] at h
    obtain ⟨hx, hxs⟩ := h
    refine pairwise_insertByKey_stable key P x (pySortBy key xs) (ih hxs) ?_
    intro y hy
    exact hx y ((mem_pySortBy key y xs).1 hy)

theorem pairwise_le_pySortBy (key : String → Int) (l : List String) :
    (pySortBy key l).Pairwise fun a b => key a ≤ key b := by
  have h := pairwise_pySortBy_stable key (fun _ _ => True) l
    ((pairwise_trivial l).imp fun _ => fun _ => trivial)
  exact h.imp fun hab => hab.1

theorem perm_insertByKey (key : String → Int) (x : String) (l : List String) :
    (insertByKey key x l).Perm (x :: l) := by
  induction l with
  | nil => simp [insertByKey]
  | cons y ys ih =>
    by_cases h : key x ≤ key y
    · simp [insertByKey, h]
    · simp only [insertByKey, if_neg h]
      exact (ih.cons y).trans (List.Perm.swap x y ys)

theorem perm_pySortBy (key : String → Int) (l : List String) :
    (pySortBy key l).Perm l := by
  induction l with
  | nil => simp [pySortBy]
  | cons x xs ih =>
    exact (perm_insertByKey key x (pySortBy key xs)).trans (ih.cons x)

theorem pairwise_imp_of_mem {α : Type} {R S : α → α → Prop} :
    ∀ {l : List α}, (∀ a b, a ∈ l → b ∈ l → R a b → S a b) →
      l.Pairwise R → l.Pairwise S := by
  intro l
  induction l with
  | nil => intro _ _; exact List.Pairwise.nil
  | cons x xs ih =>
    intro h hp
    rw [List.pairwise_cons] at hp ⊢
    exact ⟨fun y hy => h x y (by simp) (by simp [hy]) (hp.1 y hy),
      ih (fun a b ha hb => h a b (by simp [ha]) (by simp [hb])) hp.2⟩

/-! ### C4 — requeue order vs priority order -/

theorem queue_reassignFold_appends (l : List String) :
    ∀ s : MasterState, ∃ extra,
      (reassignFold l s).taskQueue = s.taskQueue ++ extra := by
  induction l with
  | nil => intro s; exact ⟨[], by simp [reassignFold]⟩
  | cons w rest ih =>
    intro s
    obtain ⟨e, he⟩ := ih (reassignDead w s)
    refine ⟨(s.tasks.filterMap fun p =>
      if p.2.worker = some w ∧ p.2.status = "running" then some p.1 else none)
        ++ e, ?_⟩
    rw [reassignFold, List.foldl_cons, ← reassignFold, he]
    simp [reassignDead]

/-- C4 amended: a task requeued by the monitor does not immediately compete
by priority — the tick only ever appends requeued ids at the tail of the
pending queue, preserving the existing queue order (so a lease right after a
requeue can return a task of non-minimal priority, as the counterexample
shows); the queue is re-sorted into non-decreasing priority order only by
the next submit. -/
theorem requeue_appends_submit_resorts (now : Int) (s : MasterState) :
    (∃ extra, (monitor_tick now s).taskQueue = s.taskQueue ++ extra) ∧
    (∀ (taskId : String) (ty pl : Option String) (prio : Option Int) (n : Int)
        (s' : MasterState),
      ((submit_task taskId ty pl prio n s').2.taskQueue).Pairwise
        fun a b => priorityOf (submit_task taskId ty pl prio n s').2 a
          ≤ priorityOf (submit_task taskId ty pl prio n s').2 b) := by
  constructor
  · rw [monitor_tick_eq_reassignFold]
    exact queue_reassignFold_appends _ s
  · intro taskId ty pl prio n s'
    exact pairwise_le_pySortBy _ _

/-! ### Operation traces -/

/-- One external operation against the master (an HTTP request or one
monitor tick), with its request fields and arrival time. -/
inductive Op where
  | submit (taskId : String) (ty pl : Option String) (prio : Option Int) (now : Int)
  | lease (workerId : String) (now : Int)
  | report (taskId : String) (result status : Option String) (now : Int)
  | reg (workerId : String) (now : Int)
  | hb (workerId : String) (now : Int)
  | tick (now : Int)
  | reset

def applyOp (s : MasterState) : Op → MasterState
  | .submit taskId ty pl prio now => (submit_task taskId ty pl prio now s).2
  | .lease w now => (get_task w now s).2
  | .report taskId r st now => update_task taskId r st now s
  | .reg w now => register_worker w now s
  | .hb w now => heartbeat w now s
  | .tick now => monitor_tick now s
  | .reset => reset_system s

def runOps (ops : List Op) : MasterState := ops.foldl applyOp initState

/-- An operation whose request is well-formed in the sense of the external
interface: a completion report carries status `done` or `failed` (or omits
the field, defaulting to `done`), as the shipped worker always does. -/
def goodOp : Op → Bool
  | .report _ _ st _ => st.getD "done" == "done" || st.getD "done" == "failed"
  | _ => true

def goodStatus (st : String) : Prop :=
  st = "queued" ∨ st = "running" ∨ st = "done" ∨ st = "failed"

def allGood (s : MasterState) : Prop := ∀ p ∈ s.tasks, goodStatus p.2.status

theorem mem_dictInsert {p : String × α} {k : String} {v : α}
    {l : List (String × α)} (h : p ∈ dictInsert k v l) : p = (k, v) ∨ p ∈ l := by
  induction l with
  | nil => simpa [dictInsert] using h
  | cons q rest ih =>
    by_cases hq : q.1 = k
    · simp only [dictInsert, if_pos hq] at h
      cases h with
      | head => exact Or.inl rfl
      | tail _ h => exact Or.inr (List.mem_cons_of_mem _ h)
    · simp only [dictInsert, if_neg hq] at h
      cases h with
      | head => exact Or.inr (List.mem_cons_self _ _)
      | tail _ h =>
        rcases ih h with h' | h'
        · exact Or.inl h'
        · exact Or.inr (List.mem_cons_of_mem _ h')

theorem allGood_dictInsert {s : List (String × Task)} {k : String} {v : Task}
    (hs : ∀ p ∈ s, goodStatus p.2.status) (hv : goodStatus v.status) :
    ∀ p ∈ dictInsert k v s, goodStatus p.2.status := by
  intro p hp
  rcases mem_dictInsert hp with h | h
  · rw [h]
    exact hv
  · exact hs p h

theorem allGood_applyOp (s : MasterState) (op : Op) (hs : allGood s)
    (hop : goodOp op = true) : allGood (applyOp s op) := by
  cases op with
  | submit taskId ty pl prio now =>
    exact allGood_dictInsert hs (Or.inl rfl)
  | lease w now =>
    simp only [applyOp, get_task]
    cases hq : s.taskQueue with
    | nil => exact hs
    | cons tid rest => exact allGood_dictInsert hs (Or.inr (Or.inl rfl))
  | report taskId r st now =>
    simp only [applyOp, update_task]
    cases hl : alookup taskId s.tasks with
    | none => exact hs
    | some t =>
      simp only [goodOp] at hop
      refine allGood_dictInsert hs ?_
      rcases Bool.or_eq_true_iff.1 hop with h | h
      · exact Or.inr (Or.inr (Or.inl (by simpa using h)))
      · exact Or.inr (Or.inr (Or.inr (by simpa using h)))
  | reg w now => exact hs
  | hb w now =>
    simp only [applyOp, heartbeat]
    cases alookup w s.workers with
    | none => exact hs
    | some _ => exact hs
  | tick now =>
    simp only [applyOp, monitor_tick_eq_reassignFold]
    generalize (s.workers.filter fun w => now - w.2 > 10).map Prod.fst = l
    induction l generalizing s with
    | nil => exact hs
    | cons w rest ih =>
      refine ih (reassignDead w s) ?_
      intro p hp
      simp only [reassignDead] at hp
      obtain ⟨q, hq, hqe⟩ := List.mem_map.1 hp
      rw [← hqe]
      by_cases hc : q.2.worker = some w ∧ q.2.status = "running"
      · simp [taskAfter, hc]
        exact Or.inl rfl
      · simp only [taskAfter, if_neg hc]
        exact hs q hq
  | reset =>
    intro p hp
    cases hp

theorem allGood_foldl (ops : List Op) :
    ∀ s : MasterState, allGood s → (∀ op ∈ ops, goodOp op = true) →
      allGood (ops.foldl applyOp s) := by
  induction ops with
  | nil => intro s hs _; exact hs
  | cons op rest ih =>
    intro s hs hgood
    exact ih (applyOp s op)
      (allGood_applyOp s op hs (hgood op (List.mem_cons_self _ _)))
      fun op' h => hgood op' (List.mem_cons_of_mem _ h)

/-! ### C9 — tasks stay inside the four-state enum -/

/-- C9 counterexample: `update_task` applies whatever status string the
request carries.  A report with status `"stuck"` on a known task moves the
task to state `"stuck"`, which is outside {queued, running, done, failed} —
so the operations as exposed can put a task in another state. -/
theorem report_escapes_status_enum_cex :
    (let s1 := (submit_task "A" (some "sort") (some "p") (some 5) 0 initState).2
     let s2 := update_task "A" none (some "stuck") 1 s1
     statusOf s2 "A" = some "stuck" ∧ ¬goodStatus "stuck") := by
  constructor
  · decide
  · intro h
    rcases h with h | h | h | h <;> simp at h

/-- C9 amended: provided every completion report carries status `done` or
`failed` (or omits it), as the shipped worker does, every task in the store
is in one of the four states queued / running (Leased) / done / failed after
any sequence of operations from the fresh state; no operation then escapes
the enum. -/
theorem task_status_enum_good_traces (ops : List Op)
    (hgood : ∀ op ∈ ops, goodOp op = true) :
    ∀ tid t, lookupTask (runOps ops) tid = some t → goodStatus t.status := by
  intro tid t h
  exact allGood_foldl ops initState (fun p hp => by cases hp) hgood
    (tid, t) (alookup_mem h)

theorem task_status_enum_good_traces_witness :
    goodStatus "running" ∧ statusOf
      (runOps [Op.submit "A" (some "sort") (some "p") (some 5) 0,
               Op.lease "w1" 1]) "A" = some "running" :=
  ⟨task_status_enum_good_traces
      [Op.submit "A" (some "sort") (some "p") (some 5) 0, Op.lease "w1" 1]
      (by decide) "A"
      { id := "A", type := some "sort", payload := some "p", priority := 5
        status := "running", result := none, worker := some "w1", timestamp := 0
        startTime := some 1, endTime := none }
      (by decide),
   by decide⟩

/-! ### C10 — default priority is 50 -/

/-- C10: a submit that omits `priority` produces exactly the state an
explicit `priority = 50` submit would produce — in particular the stored
task has priority 50 and is sorted into the queue by that value exactly like
any explicitly prioritized task. -/
theorem submit_default_priority_50 (s : MasterState) (taskId : String)
    (ty pl : Option String) (now : Int) :
    submit_task taskId ty pl none now s = submit_task taskId ty pl (some 50) now s ∧
    ((lookupTask (submit_task taskId ty pl none now s).2 taskId).map
      Task.priority) = some 50 := by
  refine ⟨rfl, ?_⟩
  simp [submit_task, lookupTask, alookup_dictInsert_self]

/-! ### C5 — priority order with FIFO tie-break on submit-then-lease -/

/-- Run a batch of submissions `(id, priority)`; the ids stand for the fresh
uuids, so they are pairwise distinct in any real run. -/
def submitSeq (subs : List (String × Int)) (s : MasterState) : MasterState :=
  subs.foldl
    (fun acc p => (submit_task p.1 (some "t") (some "p") (some p.2) 0 acc).2) s

/-- `n` successive leases by worker `w` with no intervening submit, returning
the granted tasks in order. -/
def drainN (w : String) (now : Int) : Nat → MasterState → List Task
  | 0, _ => []
  | n + 1, s =>
    match get_task w now s with
    | (none, _) => []
    | (some t, s') => t :: drainN w now n s'

/-- The priority a submission batch assigns to an id. -/
def pKey (subs : List (String × Int)) (id : String) : Int :=
  (alookup id subs).getD 0

/-- The position of an id in the submission order. -/
def subIdx (subs : List (String × Int)) (id : String) : Nat :=
  (subs.map Prod.fst).indexOf id

theorem submit_task_queue_eq (taskId : String) (ty pl : Option String)
    (prio : Option Int) (now : Int) (s : MasterState) :
    (submit_task taskId ty pl prio now s).2.taskQueue
      = pySortBy (priorityOf (submit_task taskId ty pl prio now s).2)
          (s.taskQueue ++ [taskId]) := rfl

theorem submit_task_tasks_eq (taskId : String) (ty pl : Option String)
    (prio : Option Int) (now : Int) (s : MasterState) :
    (submit_task taskId ty pl prio now s).2.tasks
      = dictInsert taskId
          { id := taskId, type := ty, payload := pl, priority := prio.getD 50
            status := "queued", result := none, worker := none, timestamp := now
            startTime := none, endTime := none } s.tasks := rfl

theorem alookup_some_of_mem {k : String} {l : List (String × α)}
    (h : k ∈ l.map Prod.fst) : ∃ v, alookup k l = some v := by
  cases hl : alookup k l with
  | none => exact absurd h ((alookup_eq_none_iff k l).1 hl)
  | some v => exact ⟨v, rfl⟩

theorem submitSeq_append (l : List (String × Int)) (x : String × Int)
    (s : MasterState) :
    submitSeq (l ++ [x]) s
      = (submit_task x.1 (some "t") (some "p") (some x.2) 0 (submitSeq l s)).2 := by
  simp [submitSeq, List.foldl_append]

theorem drainN_spec (w : String) (now : Int) :
    ∀ (n : Nat) (s : MasterState), n = s.taskQueue.length →
      s.taskQueue.Nodup →
      (∀ id ∈ s.taskQueue, ∃ t0, lookupTask s id = some t0 ∧ t0.id = id) →
      (drainN w now n s).map (fun t => (t.id, t.priority))
        = s.taskQueue.map fun id => (id, priorityOf s id)
  | 0, s, hn, _, _ => by
    have hq : s.taskQueue = [] := List.length_eq_zero.1 hn.symm
    simp [drainN, hq]
  | n + 1, s, hn, hnd, hc => by
    cases hq : s.taskQueue with
    | nil => rw [hq] at hn; simp at hn
    | cons tid rest =>
      obtain ⟨t0, ht0, hid⟩ := hc tid (by rw [hq]; exact List.mem_cons_self _ _)
      set t1 : Task := { t0 with status := "running", worker := some w, startTime := some now } with ht1
      set s1 : MasterState := { s with taskQueue := rest, tasks := dictInsert tid t1 s.tasks, firstTaskStart := if s.firstTaskStart = none then some now else s.firstTaskStart } with hs1
      have hg : get_task w now s = (some t1, s1) := by
        simp [get_task, hq, ht0, ht1, hs1]
      rw [hq] at hn hnd
      have hnr : n = s1.taskQueue.length := by simpa [hs1] using hn
      have htid : tid ∉ rest := (List.nodup_cons.1 hnd).1
      have hndr : s1.taskQueue.Nodup := (List.nodup_cons.1 hnd).2
      have hc' : ∀ id ∈ s1.taskQueue,
          ∃ u, lookupTask s1 id = some u ∧ u.id = id := by
        intro id hmem
        rw [hs1] at hmem
        obtain ⟨u, hu, hui⟩ := hc id (by rw [hq]; exact List.mem_cons_of_mem _ hmem)
        refine ⟨u, ?_, hui⟩
        have hne : id ≠ tid := fun he => htid (he ▸ hmem)
        simpa [hs1, lookupTask, alookup_dictInsert_ne id tid _ _ hne] using hu
      have ih := drainN_spec w now n s1 hnr hndr hc'
      have hq1 : s1.taskQueue = rest := by rw [hs1]
      simp only [drainN, hg, List.map_cons]
      rw [ih, hq1]
      congr 1
      · simp [ht1, hid, priorityOf, ht0]
      · refine List.map_congr_left fun id hmem => ?_
        have hne : id ≠ tid := fun he => htid (he ▸ hmem)
        rw [hs1]
        simp [priorityOf, lookupTask, alookup_dictInsert_ne id tid _ _ hne]

theorem submitSeq_inv (subs : List (String × Int))
    (hnd : (subs.map Prod.fst).Nodup) :
    (submitSeq subs initState).taskQueue.Perm (subs.map Prod.fst) ∧
    (∀ id ∈ subs.map Prod.fst, ∃ t0,
      lookupTask (submitSeq subs initState) id = some t0 ∧ t0.id = id ∧
      t0.priority = pKey subs id) ∧
    (submitSeq subs initState).taskQueue.Pairwise
      (keyRel (pKey subs) fun a b => subIdx subs a < subIdx subs b) := by
  induction subs using List.reverseRecOn with
  | nil => exact ⟨List.Perm.refl _, by simp, List.Pairwise.nil⟩
  | append_singleton l x ih =>
    obtain ⟨nid, np⟩ := x
    have hmap : ((l ++ [(nid, np)]).map Prod.fst) = l.map Prod.fst ++ [nid] := by
      simp
    rw [hmap] at hnd
    have hndl : (l.map Prod.fst).Nodup := (List.nodup_append.1 hnd).1
    have hnidl : nid ∉ l.map Prod.fst := by
      intro hmem
      exact (List.nodup_append.1 hnd).2.2 hmem (by simp)
    obtain ⟨hperm, hlk, hpw⟩ := ih hndl
    have hkey_new : pKey (l ++ [(nid, np)]) nid = np := by
      have h0 : alookup nid l = (none : Option Int) :=
        (alookup_eq_none_iff nid l).2 hnidl
      simp [pKey, alookup_append, h0, alookup]
    have hkey_old : ∀ id ∈ l.map Prod.fst,
        pKey (l ++ [(nid, np)]) id = pKey l id := by
      intro id hmem
      obtain ⟨v, hv⟩ := alookup_some_of_mem hmem
      simp [pKey, alookup_append, hv]
    have hidx_old : ∀ id ∈ l.map Prod.fst,
        subIdx (l ++ [(nid, np)]) id = subIdx l id ∧ subIdx l id < l.length := by
      intro id hmem
      constructor
      · simp only [subIdx, hmap]
        exact List.indexOf_append_of_mem hmem
      · have := List.indexOf_lt_length.2 hmem
        simpa [subIdx] using this
    have hidx_new : subIdx (l ++ [(nid, np)]) nid = l.length := by
      simp only [subIdx, hmap]
      rw [List.indexOf_append_of_not_mem hnidl]
      simp
    rw [submitSeq_append]
    set s := submitSeq l initState with hs
    set S := (submit_task nid (some "t") (some "p") (some np) 0 s).2 with hS
    have newTaskDef : lookupTask S nid = some
        { id := nid, type := some "t", payload := some "p", priority := np
          status := "queued", result := none, worker := none, timestamp := 0
          startTime := none, endTime := none } := by
      rw [hS]
      simp [lookupTask, submit_task_tasks_eq, alookup_dictInsert_self]
    have hlookup_ne : ∀ id, id ≠ nid → lookupTask S id = lookupTask s id := by
      intro id hne
      rw [hS]
      simp [lookupTask, submit_task_tasks_eq, alookup_dictInsert_ne id nid _ _ hne]
    have hkeyagree : ∀ a ∈ s.taskQueue ++ [nid],
        priorityOf S a = pKey (l ++ [(nid, np)]) a := by
      intro a hmem
      rcases List.mem_append.1 hmem with hq | hq
      · have haml : a ∈ l.map Prod.fst := hperm.mem_iff.1 hq
        have hane : a ≠ nid := fun he => hnidl (he ▸ haml)
        obtain ⟨t0, ht0, _, hp0⟩ := hlk a haml
        rw [hkey_old a haml, ← hp0]
        simp [priorityOf, hlookup_ne a hane, ht0]
      · have ha : a = nid := by simpa using hq
        subst ha
        rw [hkey_new]
        simp [priorityOf, newTaskDef]
    refine ⟨?_, ?_, ?_⟩
    · rw [hS, submit_task_queue_eq, hmap]
      exact (perm_pySortBy _ _).trans (hperm.append_right [nid])
    · intro id hid
      rw [hmap] at hid
      rcases List.mem_append.1 hid with hml | hmx
      · obtain ⟨t0, ht0, hti, hp0⟩ := hlk id hml
        have hne : id ≠ nid := fun he => hnidl (he ▸ hml)
        exact ⟨t0, by rw [hlookup_ne id hne]; exact ht0, hti,
          by rw [hkey_old id hml]; exact hp0⟩
      · have : id = nid := by simpa using hmx
        subst this
        exact ⟨_, newTaskDef, rfl, by rw [hkey_new]⟩
    · rw [hS, submit_task_queue_eq]
      have hstable := pairwise_pySortBy_stable (priorityOf S)
        (fun a b => subIdx (l ++ [(nid, np)]) a < subIdx (l ++ [(nid, np)]) b)
        (s.taskQueue ++ [nid]) ?_
      · refine pairwise_imp_of_mem (fun a b ha hb hab => ?_) hstable
        have ha' := (mem_pySortBy _ a _).1 ha
        have hb' := (mem_pySortBy _ b _).1 hb
        rw [keyRel, ← hkeyagree a ha', ← hkeyagree b hb']
        exact hab
      · rw [List.pairwise_append]
        refine ⟨?_, by simp, ?_⟩
        · refine pairwise_imp_of_mem (fun a b ha hb hab => ?_) hpw
          intro hpeq
          have haml : a ∈ l.map Prod.fst := hperm.mem_iff.1 ha
          have hbml : b ∈ l.map Prod.fst := hperm.mem_iff.1 hb
          rw [hkeyagree a (List.mem_append_left _ ha),
            hkeyagree b (List.mem_append_left _ hb), hkey_old a haml,
            hkey_old b hbml] at hpeq
          have := hab.2 hpeq
          rw [(hidx_old a haml).1, (hidx_old b hbml).1]
          exact this
        · intro a ha b hb _
          have hbn : b = nid := by simpa using hb
          subst hbn
          have haml : a ∈ l.map Prod.fst := hperm.mem_iff.1 ha
          rw [(hidx_old a haml).1, hidx_new]
          exact (hidx_old a haml).2

/-- C5: starting from a fresh state, submit a batch with distinct ids and
priorities `p1..pn`, then lease repeatedly with no intervening submit.  The
granted tasks are a permutation of the submitted batch, their priorities are
non-decreasing, and among equal priorities the grant order is the submission
order (FIFO tie-break). -/
theorem submit_lease_priority_fifo (subs : List (String × Int))
    (hnd : (subs.map Prod.fst).Nodup) :
    ((drainN "w1" 1 subs.length (submitSeq subs initState)).map Task.id).Perm
        (subs.map Prod.fst) ∧
    (drainN "w1" 1 subs.length (submitSeq subs initState)).Pairwise
      fun a b => a.priority ≤ b.priority ∧
        (a.priority = b.priority →
          (subs.map Prod.fst).indexOf a.id < (subs.map Prod.fst).indexOf b.id) := by
  obtain ⟨hperm, hlk, hpw⟩ := submitSeq_inv subs hnd
  set s := submitSeq subs initState with hs
  have hlen : subs.length = s.taskQueue.length := by
    have := hperm.length_eq
    simpa using this.symm
  have hndq : s.taskQueue.Nodup := hperm.nodup_iff.2 hnd
  have hc : ∀ id ∈ s.taskQueue, ∃ t0, lookupTask s id = some t0 ∧ t0.id = id := by
    intro id hmem
    obtain ⟨t0, ht0, hti, _⟩ := hlk id (hperm.mem_iff.1 hmem)
    exact ⟨t0, ht0, hti⟩
  have hmapeq := drainN_spec "w1" 1 subs.length s hlen hndq hc
  constructor
  · have hids : (drainN "w1" 1 subs.length s).map Task.id
        = s.taskQueue := by
      have h1 := congrArg (List.map Prod.fst) hmapeq
      simp only [List.map_map, Function.comp_def] at h1
      simpa using h1
    rw [hids]
    exact hperm
  · have hpw' : (s.taskQueue.map fun id => (id, priorityOf s id)).Pairwise
        (fun a b => a.2 ≤ b.2 ∧ (a.2 = b.2 →
          (subs.map Prod.fst).indexOf a.1 < (subs.map Prod.fst).indexOf b.1)) := by
      rw [List.pairwise_map]
      refine pairwise_imp_of_mem (fun a b ha hb hab => ?_) hpw
      have hpa : priorityOf s a = pKey subs a := by
        obtain ⟨t0, ht0, _, hp0⟩ := hlk a (hperm.mem_iff.1 ha)
        simp [priorityOf, ht0, hp0]
      have hpb : priorityOf s b = pKey subs b := by
        obtain ⟨t0, ht0, _, hp0⟩ := hlk b (hperm.mem_iff.1 hb)
        simp [priorityOf, ht0, hp0]
      refine ⟨by rw [hpa, hpb]; exact hab.1, fun he => ?_⟩
      rw [hpa, hpb] at he
      exact hab.2 he
    rw [← hmapeq] at hpw'
    rw [List.pairwise_map] at hpw'
    exact hpw'

theorem submit_lease_priority_fifo_witness :
    ((drainN "w1" 1 ([("a", 5), ("b", 1), ("c", 5)] : List (String × Int)).length
        (submitSeq [("a", 5), ("b", 1), ("c", 5)] initState)).map Task.id).Perm
        (([("a", 5), ("b", 1), ("c", 5)] : List (String × Int)).map Prod.fst) ∧
    (drainN "w1" 1 ([("a", 5), ("b", 1), ("c", 5)] : List (String × Int)).length
        (submitSeq [("a", 5), ("b", 1), ("c", 5)] initState)).Pairwise
      (fun a b => a.priority ≤ b.priority ∧
        (a.priority = b.priority →
          (([("a", 5), ("b", 1), ("c", 5)] : List (String × Int)).map
            Prod.fst).indexOf a.id
            < (([("a", 5), ("b", 1), ("c", 5)] : List (String × Int)).map
                Prod.fst).indexOf b.id)) :=
  submit_lease_priority_fifo [("a", 5), ("b", 1), ("c", 5)] (by decide)

end Master
